import Mathlib

/-!
# GPU skinning example: the animation loop of `examples/models/models_gpu_skinning.c`

A shallow embedding of the state that `main` keeps between two iterations of its
game loop (two clip indices and two frame counters, all `unsigned int`), of one
iteration of the loop (clip selection on the T and G keys, the two frame-counter
updates, the two pose requests and the draw calls), and of the acquisition and
release sequences around the loop.

C integers: `int` values are `Int`, `unsigned int` values are `Nat` and every
unsigned operation reduces modulo `2 ^ 32` explicitly. A division by zero and an
array read outside the clip array are errors of the embedding.
-/

namespace GpuSkinning

/-! ## Machine integers -/

/-- Largest value of the C type `int` (32 bits). -/
def INT_MAX : Int := 2147483647

/-- Number of values of the C type `unsigned int` (32 bits). -/
def UINT_RANGE : Nat := 4294967296

/-- Usual arithmetic conversion of an `int` operand to `unsigned int`. -/
def toUnsigned (x : Int) : Nat := (x % (UINT_RANGE : Int)).toNat

/-- Addition of two `unsigned int` values. -/
def uadd (a b : Nat) : Nat := (a + b) % UINT_RANGE

/-- Subtraction of two `unsigned int` values. -/
def usub (a b : Nat) : Nat := (a + UINT_RANGE - b % UINT_RANGE) % UINT_RANGE

/-- What stops an iteration of the loop in the embedding. -/
inductive TickError where
  | divisionByZero
  | clipIndexOutOfRange
deriving DecidableEq, Repr

/-- The operator `%` on two `unsigned int` values; a zero divisor is an error. -/
def umod (a b : Nat) : Except TickError Nat :=
  if b = 0 then .error .divisionByZero else .ok (a % b)

/-! ## Data model -/

/-- Modelled from the spec: the declaration of `ModelAnimation` is in `raylib.h`,
which is not among the sources. The loop reads the field `frameCount` (a C `int`)
and hands the clip as a whole to the pose engine; `framePoses` stands for the
frame data of the clip ("an ordered sequence of frames"), which the loop never
reads. -/
structure ModelAnimation where
  frameCount : Int
  framePoses : Nat
deriving DecidableEq, Repr

/-- The variable `animsCount`, an `int` that `LoadModelAnimations` sets to the
number of clips of the array it returns. -/
def animsCount (modelAnimations : List ModelAnimation) : Int :=
  (modelAnimations.length : Int)

/-- The array read `modelAnimations[i]`. -/
def clipAt (modelAnimations : List ModelAnimation) (i : Nat) :
    Except TickError ModelAnimation :=
  match modelAnimations[i]? with
  | some anim => .ok anim
  | none => .error .clipIndexOutOfRange

/-- The four `unsigned int` variables that `main` carries from one iteration of
the loop to the next. -/
structure AnimState where
  animIndex1 : Nat
  animCurrentFrame1 : Nat
  animIndex2 : Nat
  animCurrentFrame2 : Nat
deriving DecidableEq, Repr

/-- Values of the four variables when the loop is entered (lines 62 to 65). -/
def initState : AnimState :=
  { animIndex1 := 0, animCurrentFrame1 := 0, animIndex2 := 1, animCurrentFrame2 := 0 }

/-- The two pose buffers of `main`. -/
inductive PoseBuffer where
  | pose1
  | pose2
deriving DecidableEq, Repr

/-- A `Vector3` over the scalar type `α` that stands for `float`. -/
structure Vector3 (α : Type) where
  x : α
  y : α
  z : α
deriving DecidableEq, Repr

/-- What one iteration reads from the library: the answers of `IsKeyPressed(KEY_T)`
and `IsKeyPressed(KEY_G)` and the value of `GetTime()`. -/
structure TickInput (α : Type) where
  keyT : Bool
  keyG : Bool
  time : α
deriving DecidableEq, Repr

/-- The library calls of one iteration that receive animation state, with the
arguments that `main` computes (the model, the rotation, the scale and the tint
are the same in every call and are left out). -/
inductive Call (α : Type) where
  | UpdateModelAnimationBonesPose (anim : ModelAnimation) (frame : Nat) (pose : PoseBuffer)
  | InterpolateModelAnimationBonesPose (anim : ModelAnimation) (frameA frameB : Int)
      (param : α) (pose : PoseBuffer)
  | DrawModelPro (position : Vector3 α) (pose : PoseBuffer)
  | DrawTextParam (param : α)
deriving DecidableEq, Repr

section Loop

variable {α : Type} [Zero α] [One α] [Add α] [Div α] [OfNat α 2]

/-- Position of instance 1 (line 68). -/
def position1 : Vector3 α := { x := 0, y := 0, z := 0 }

/-- Position of instance 2 (line 69). -/
def position2 : Vector3 α := { x := 0, y := 0, z := 2 }

/-- The blend factor of line 105, from the value `s` that `sinf` returned. -/
def blendParam (s : α) : α := (s + 1) / 2

/-- Lines 87 to 96: the T key moves both clip indices one clip forward, otherwise
the G key moves both one clip backward; both wrap with `% animsCount`, computed
in `unsigned int`. -/
def selectAnimation (animsCount : Int) (keyT keyG : Bool) (s : AnimState) :
    Except TickError AnimState :=
  if keyT then do
    let i1 ← umod (uadd s.animIndex1 1) (toUnsigned animsCount)
    let i2 ← umod (uadd s.animIndex2 1) (toUnsigned animsCount)
    pure { s with animIndex1 := i1, animIndex2 := i2 }
  else if keyG then do
    let i1 ← umod (usub (uadd s.animIndex1 (toUnsigned animsCount)) 1) (toUnsigned animsCount)
    let i2 ← umod (usub (uadd s.animIndex2 (toUnsigned animsCount)) 1) (toUnsigned animsCount)
    pure { s with animIndex1 := i1, animIndex2 := i2 }
  else
    pure s

/-- One iteration of the loop, lines 87 to 126: clip selection, the frame counter
and pose request of instance 1, the frame counter and pose request of instance 2,
then the draw calls. `sinf` is the library function of that name, together
with the conversion of the `double` that `GetTime()` returns to `float`. The call
`UpdateCamera` and the calls of the drawing section that receive no animation
state are not part of the embedding. -/
def tick (sinf : α → α) (modelAnimations : List ModelAnimation) (inp : TickInput α)
    (s : AnimState) : Except TickError (AnimState × List (Call α)) := do
  let s1 ← selectAnimation (animsCount modelAnimations) inp.keyT inp.keyG s
  let anim1 ← clipAt modelAnimations s1.animIndex1
  let frame1 ← umod (uadd s1.animCurrentFrame1 1) (toUnsigned anim1.frameCount)
  let anim2 ← clipAt modelAnimations s1.animIndex2
  let frame2 ← umod (uadd s1.animCurrentFrame2 1) (toUnsigned anim2.frameCount)
  let param := blendParam (sinf inp.time)
  pure ({ s1 with animCurrentFrame1 := frame1, animCurrentFrame2 := frame2 },
        [ .UpdateModelAnimationBonesPose anim1 frame1 .pose1,
          .InterpolateModelAnimationBonesPose anim2 0 (Int.tdiv anim2.frameCount 2) param .pose2,
          .DrawModelPro position1 .pose1,
          .DrawModelPro position2 .pose2,
          .DrawTextParam param ])

/-- The loop over a finite sequence of iterations: the final state and, for each
iteration, the calls it issued. -/
def run (sinf : α → α) (modelAnimations : List ModelAnimation) :
    List (TickInput α) → AnimState → Except TickError (AnimState × List (List (Call α)))
  | [], s => pure (s, [])
  | inp :: rest, s => do
    let (s1, calls) ← tick sinf modelAnimations inp s
    let (s2, trace) ← run sinf modelAnimations rest s1
    pure (s2, calls :: trace)

/-- States of the loop: the state at entry, and every state in which an iteration
that completed leaves the loop. -/
inductive Reachable (sinf : α → α) (modelAnimations : List ModelAnimation) :
    AnimState → Prop where
  | init : Reachable sinf modelAnimations initState
  | tick {s s1 : AnimState} {inp : TickInput α} {calls : List (Call α)} :
      Reachable sinf modelAnimations s →
      tick sinf modelAnimations inp s = .ok (s1, calls) →
      Reachable sinf modelAnimations s1

/-- The calls of an iteration that completes with clips `anim1` and `anim2` and
with `frame1` as new frame counter of instance 1, in the order of `tick`. -/
def tickCalls (sinf : α → α) (inp : TickInput α) (anim1 anim2 : ModelAnimation)
    (frame1 : Nat) : List (Call α) :=
  [ .UpdateModelAnimationBonesPose anim1 frame1 .pose1,
    .InterpolateModelAnimationBonesPose anim2 0 (Int.tdiv anim2.frameCount 2)
      (blendParam (sinf inp.time)) .pose2,
    .DrawModelPro position1 .pose1,
    .DrawModelPro position2 .pose2,
    .DrawTextParam (blendParam (sinf inp.time)) ]

end Loop

/-! ## Counting key events -/

/-- An iteration carries a "next" event when the T key was pressed. -/
def isNext {α : Type} (inp : TickInput α) : Bool := inp.keyT

/-- An iteration carries a "previous" event when the G key was pressed and the T
key was not: the G key is looked at in the `else` branch only. -/
def isPrevious {α : Type} (inp : TickInput α) : Bool := !inp.keyT && inp.keyG

/-- Number of "next" events of a sequence of iterations. -/
def countNext {α : Type} (inputs : List (TickInput α)) : Nat := inputs.countP isNext

/-- Number of "previous" events of a sequence of iterations. -/
def countPrevious {α : Type} (inputs : List (TickInput α)) : Nat := inputs.countP isPrevious

/-- Signed displacement of the clip indices that the keys of one iteration ask for. -/
def keyDelta (keyT keyG : Bool) : Int :=
  if keyT then 1 else if keyG then -1 else 0

/-- New value of a clip index after the selection block of one iteration, with
the divisor `n` already converted to `unsigned int`. -/
def switchIndex (n : Nat) (keyT keyG : Bool) (i : Nat) : Nat :=
  if keyT then uadd i 1 % n
  else if keyG then usub (uadd i n) 1 % n
  else i

/-- A state with the frame counter of instance 2 blanked out: everything of the
state but `animCurrentFrame2`. -/
def eraseFrame2 (s : AnimState) : AnimState := { s with animCurrentFrame2 := 0 }

/-- A clip index after the selection blocks of a sequence of iterations. -/
def switchIndices {α : Type} (n : Nat) : List (TickInput α) → Nat → Nat
  | [], i => i
  | inp :: rest, i => switchIndices n rest (switchIndex n inp.keyT inp.keyG i)

/-- What is left of a result when the final value of `animCurrentFrame2` is
blanked out: the rest of the final state and the calls issued. -/
def observe {β : Type} (r : AnimState × β) : AnimState × β :=
  (eraseFrame2 r.1, r.2)

/-! ## Acquisition and release of resources -/

/-- The resources that `main` owns. -/
inductive Resource where
  | window
  | characterModel
  | skinningShader
  | modelAnimations
  | pose1
  | pose2
deriving DecidableEq, Repr

/-- The library calls of `main` that acquire or release a resource. -/
inductive LifecycleCall where
  | InitWindow
  | LoadModel
  | LoadShader
  | LoadModelAnimations
  | LoadModelBonePose (pose : PoseBuffer)
  | UnloadModelBonePose (pose : PoseBuffer)
  | UnloadModelAnimations
  | UnloadModel
  | UnloadShader
  | CloseWindow
deriving DecidableEq, Repr

/-- The resource behind a pose buffer variable. -/
def poseResource : PoseBuffer → Resource
  | .pose1 => .pose1
  | .pose2 => .pose2

/-- Initialization, lines 38 to 72, in program order. -/
def initialization : List LifecycleCall :=
  [ .InitWindow, .LoadModel, .LoadShader, .LoadModelAnimations,
    .LoadModelBonePose .pose1, .LoadModelBonePose .pose2 ]

/-- De-initialization, lines 134 to 140, in program order. -/
def deInitialization : List LifecycleCall :=
  [ .UnloadModelBonePose .pose1, .UnloadModelBonePose .pose2, .UnloadModelAnimations,
    .UnloadModel, .UnloadShader, .CloseWindow ]

/-- The resource that a call acquires, if any. -/
def acquired : LifecycleCall → Option Resource
  | .InitWindow => some .window
  | .LoadModel => some .characterModel
  | .LoadShader => some .skinningShader
  | .LoadModelAnimations => some .modelAnimations
  | .LoadModelBonePose pose => some (poseResource pose)
  | _ => none

/-- The resource that a call releases, if any. -/
def released : LifecycleCall → Option Resource
  | .UnloadModelBonePose pose => some (poseResource pose)
  | .UnloadModelAnimations => some .modelAnimations
  | .UnloadModel => some .characterModel
  | .UnloadShader => some .skinningShader
  | .CloseWindow => some .window
  | _ => none

/-- Acquisition trace of the whole program. -/
def acquisitionTrace : List Resource :=
  (initialization ++ deInitialization).filterMap acquired

/-- Release trace of the whole program. -/
def releaseTrace : List Resource :=
  (initialization ++ deInitialization).filterMap released

/-! ## Sample data -/

/-- Five clips with different frame counts. -/
def sampleClips : List ModelAnimation :=
  [ { frameCount := 10, framePoses := 0 }, { frameCount := 3, framePoses := 1 },
    { frameCount := 7, framePoses := 2 }, { frameCount := 1, framePoses := 3 },
    { frameCount := 4, framePoses := 4 } ]

/-- A clip array with a single clip. -/
def singleClip : List ModelAnimation := [ { frameCount := 10, framePoses := 0 } ]

/-- A stand-in for `sinf` on integer scalars. -/
def sampleSinf (x : Int) : Int := x

/-- An iteration with the T key pressed. -/
def pressT : TickInput Int := { keyT := true, keyG := false, time := 0 }

/-- An iteration with the G key pressed. -/
def pressG : TickInput Int := { keyT := false, keyG := true, time := 0 }

/-- An iteration without a key event. -/
def noKey : TickInput Int := { keyT := false, keyG := false, time := 0 }

/-! ## Machine arithmetic -/

theorem toUnsigned_of_range {x : Int} (h0 : 0 ≤ x) (h1 : x ≤ INT_MAX) :
    toUnsigned x = x.toNat := by
  unfold toUnsigned UINT_RANGE
  unfold INT_MAX at h1
  rw [Int.emod_eq_of_lt h0 (by norm_num; omega)]

theorem toUnsigned_natCast {n : Nat} (h1 : (n : Int) ≤ INT_MAX) :
    toUnsigned (n : Int) = n := by
  rw [toUnsigned_of_range (Int.natCast_nonneg n) h1]; simp

theorem umod_ok {a b : Nat} (hb : b ≠ 0) : umod a b = .ok (a % b) := by
  simp [umod, hb]

theorem switchIndex_lt {n : Nat} (hn : 0 < n) (keyT keyG : Bool) {i : Nat} (hi : i < n) :
    switchIndex n keyT keyG i < n := by
  unfold switchIndex
  split
  · exact Nat.mod_lt _ hn
  · split
    · exact Nat.mod_lt _ hn
    · exact hi

theorem switchIndex_lt_of_key {n : Nat} (hn : 0 < n) {keyT keyG : Bool}
    (hk : keyT = true ∨ keyG = true) (i : Nat) :
    switchIndex n keyT keyG i < n := by
  unfold switchIndex
  split
  · exact Nat.mod_lt _ hn
  · split
    · exact Nat.mod_lt _ hn
    · rcases hk with h | h <;> simp_all

theorem switchIndex_cast {n : Nat} (hn : 0 < n) (hmax : (n : Int) ≤ INT_MAX)
    (keyT keyG : Bool) {i : Nat} (hi : i < n) :
    ((switchIndex n keyT keyG i : Nat) : Int) =
      ((i : Int) + keyDelta keyT keyG) % (n : Int) := by
  unfold INT_MAX at hmax
  cases keyT
  · cases keyG
    · simp only [switchIndex, keyDelta, Bool.false_eq_true, if_false, add_zero]
      rw [Int.emod_eq_of_lt (by omega) (by omega)]
    · have h : usub (uadd i n) 1 = i + n - 1 := by
        unfold usub uadd UINT_RANGE; omega
      simp only [switchIndex, keyDelta, Bool.false_eq_true, if_false, if_true, h]
      rw [Int.natCast_mod]
      have h2 : ((i + n - 1 : Nat) : Int) = ((i : Int) + -1) + n := by omega
      rw [h2, Int.add_emod_self]
  · have h : uadd i 1 = i + 1 := by
      unfold uadd UINT_RANGE; omega
    simp only [switchIndex, keyDelta, if_true, h]
    rw [Int.natCast_mod]
    norm_cast

/-! ## Counting the key events -/

theorem netShift_cons {α : Type} (inp : TickInput α) (rest : List (TickInput α)) :
    ((countNext (inp :: rest) : Nat) : Int) - (countPrevious (inp :: rest) : Nat) =
      keyDelta inp.keyT inp.keyG + (((countNext rest : Nat) : Int) - (countPrevious rest : Nat)) := by
  obtain ⟨keyT, keyG, time⟩ := inp
  cases keyT <;> cases keyG <;>
    simp [countNext, countPrevious, List.countP_cons, isNext, isPrevious, keyDelta] <;> ring

theorem switchIndices_cast {α : Type} {n : Nat} (hn : 0 < n) (hmax : (n : Int) ≤ INT_MAX)
    (inputs : List (TickInput α)) :
    ∀ i : Nat, i < n →
      switchIndices n inputs i < n ∧
      ((switchIndices n inputs i : Nat) : Int) =
        ((i : Int) + (((countNext inputs : Nat) : Int) - (countPrevious inputs : Nat))) % (n : Int) := by
  induction inputs with
  | nil =>
    intro i hi
    refine ⟨hi, ?_⟩
    simp only [switchIndices, countNext, countPrevious, List.countP_nil, Nat.cast_zero,
      sub_zero, add_zero]
    rw [Int.emod_eq_of_lt (by omega) (by omega)]
  | cons inp rest ih =>
    intro i hi
    have hlt := switchIndex_lt hn inp.keyT inp.keyG hi
    obtain ⟨h1, h2⟩ := ih _ hlt
    refine ⟨h1, ?_⟩
    rw [switchIndices, h2, switchIndex_cast hn hmax inp.keyT inp.keyG hi, netShift_cons,
      Int.emod_add_emod, add_assoc]

/-! ## One iteration -/

theorem selectAnimation_ok {c : Int} (hc : toUnsigned c ≠ 0) (keyT keyG : Bool)
    (s : AnimState) :
    selectAnimation c keyT keyG s =
      .ok { s with animIndex1 := switchIndex (toUnsigned c) keyT keyG s.animIndex1,
                   animIndex2 := switchIndex (toUnsigned c) keyT keyG s.animIndex2 } := by
  cases keyT <;> cases keyG <;>
    simp [selectAnimation, switchIndex, umod_ok hc, bind, Except.bind, pure, Except.pure]

theorem selectAnimation_inv {c : Int} {keyT keyG : Bool} {s s1 : AnimState}
    (h : selectAnimation c keyT keyG s = .ok s1) :
    s1 = { s with animIndex1 := switchIndex (toUnsigned c) keyT keyG s.animIndex1,
                  animIndex2 := switchIndex (toUnsigned c) keyT keyG s.animIndex2 } := by
  by_cases hc : toUnsigned c = 0
  · cases keyT <;> cases keyG <;>
      simp [selectAnimation, switchIndex, umod, hc, bind, Except.bind, pure, Except.pure] at h ⊢
    exact h.symm
  · rw [selectAnimation_ok hc] at h
    injection h with h
    exact h.symm

theorem clipAt_eq_ok {anims : List ModelAnimation} {i : Nat} {a : ModelAnimation} :
    clipAt anims i = .ok a ↔ anims[i]? = some a := by
  unfold clipAt
  cases h : anims[i]? <;> simp

section TickLemmas

variable {α : Type} [Zero α] [One α] [Add α] [Div α] [OfNat α 2]

theorem tick_eq_ok_iff (sinf : α → α) (anims : List ModelAnimation) (inp : TickInput α)
    (s t : AnimState) (calls : List (Call α)) :
    tick sinf anims inp s = .ok (t, calls) ↔
      ∃ s1 a1 a2, selectAnimation (animsCount anims) inp.keyT inp.keyG s = .ok s1 ∧
        anims[s1.animIndex1]? = some a1 ∧ toUnsigned a1.frameCount ≠ 0 ∧
        anims[s1.animIndex2]? = some a2 ∧ toUnsigned a2.frameCount ≠ 0 ∧
        t = { s1 with
              animCurrentFrame1 := uadd s1.animCurrentFrame1 1 % toUnsigned a1.frameCount,
              animCurrentFrame2 := uadd s1.animCurrentFrame2 1 % toUnsigned a2.frameCount } ∧
        calls = tickCalls sinf inp a1 a2
          (uadd s1.animCurrentFrame1 1 % toUnsigned a1.frameCount) := by
  unfold tick
  cases hsel : selectAnimation (animsCount anims) inp.keyT inp.keyG s with
  | error e => simp [bind, Except.bind]
  | ok s1 =>
    cases h1 : anims[s1.animIndex1]? with
    | none => simp [bind, Except.bind, clipAt, h1]
    | some a1 =>
      by_cases hf1 : toUnsigned a1.frameCount = 0
      · simp [bind, Except.bind, clipAt, h1, umod, hf1]
      · cases h2 : anims[s1.animIndex2]? with
        | none => simp [bind, Except.bind, clipAt, h1, h2, umod, hf1]
        | some a2 =>
          by_cases hf2 : toUnsigned a2.frameCount = 0
          · simp [bind, Except.bind, clipAt, h1, h2, umod, hf1, hf2]
          · simp [bind, Except.bind, clipAt, h1, h2, umod, hf1, hf2, pure, Except.pure,
              tickCalls]
            constructor
            · rintro ⟨rfl, rfl⟩
              exact ⟨rfl, rfl⟩
            · rintro ⟨rfl, rfl⟩
              exact ⟨rfl, rfl⟩

theorem tick_index (sinf : α → α) (anims : List ModelAnimation) (inp : TickInput α)
    (s t : AnimState) (calls : List (Call α)) (h : tick sinf anims inp s = .ok (t, calls)) :
    t.animIndex1 = switchIndex (toUnsigned (animsCount anims)) inp.keyT inp.keyG s.animIndex1 ∧
    t.animIndex2 = switchIndex (toUnsigned (animsCount anims)) inp.keyT inp.keyG s.animIndex2 := by
  obtain ⟨s1, a1, a2, hsel, -, -, -, -, rfl, -⟩ := (tick_eq_ok_iff sinf anims inp s t calls).1 h
  rw [selectAnimation_inv hsel]
  exact ⟨rfl, rfl⟩

theorem frameCount_toUnsigned {anims : List ModelAnimation}
    (hpos : ∀ a ∈ anims, 0 < a.frameCount ∧ a.frameCount ≤ INT_MAX)
    {i : Nat} {a : ModelAnimation} (ha : anims[i]? = some a) :
    toUnsigned a.frameCount = a.frameCount.toNat ∧ 0 < a.frameCount.toNat := by
  have hmem : a ∈ anims := List.getElem?_mem ha
  obtain ⟨h0, h1⟩ := hpos a hmem
  exact ⟨toUnsigned_of_range (le_of_lt h0) h1, by omega⟩

theorem clip_exists (anims : List ModelAnimation) (i : Nat) (h : i < anims.length) :
    ∃ a, anims[i]? = some a :=
  ⟨anims[i], List.getElem?_eq_getElem h⟩

theorem tick_completes (sinf : α → α) (anims : List ModelAnimation)
    (hlo : 0 < animsCount anims) (hhi : animsCount anims ≤ INT_MAX)
    (hpos : ∀ a ∈ anims, 0 < a.frameCount ∧ a.frameCount ≤ INT_MAX)
    (inp : TickInput α) (s : AnimState)
    (h1 : switchIndex anims.length inp.keyT inp.keyG s.animIndex1 < anims.length)
    (h2 : switchIndex anims.length inp.keyT inp.keyG s.animIndex2 < anims.length) :
    ∃ t calls, tick sinf anims inp s = .ok (t, calls) := by
  have hn : toUnsigned (animsCount anims) = anims.length := toUnsigned_natCast hhi
  have hn0 : toUnsigned (animsCount anims) ≠ 0 := by
    rw [hn]; unfold animsCount at hlo; omega
  have hsel := selectAnimation_ok hn0 inp.keyT inp.keyG s
  rw [hn] at hsel
  obtain ⟨a1, ha1⟩ := clip_exists _ _ h1
  obtain ⟨a2, ha2⟩ := clip_exists _ _ h2
  obtain ⟨hf1, hf1p⟩ := frameCount_toUnsigned hpos ha1
  obtain ⟨hf2, hf2p⟩ := frameCount_toUnsigned hpos ha2
  have hz1 : toUnsigned a1.frameCount ≠ 0 := by rw [hf1]; exact Nat.pos_iff_ne_zero.1 hf1p
  have hz2 : toUnsigned a2.frameCount ≠ 0 := by rw [hf2]; exact Nat.pos_iff_ne_zero.1 hf2p
  exact ⟨_, _, (tick_eq_ok_iff sinf anims inp s _ _).2
    ⟨_, a1, a2, hsel, ha1, hz1, ha2, hz2, rfl, rfl⟩⟩

theorem run_cons_eq_ok_iff (sinf : α → α) (anims : List ModelAnimation) (inp : TickInput α)
    (rest : List (TickInput α)) (s t : AnimState) (trace : List (List (Call α))) :
    run sinf anims (inp :: rest) s = .ok (t, trace) ↔
      ∃ s1 calls tr, tick sinf anims inp s = .ok (s1, calls) ∧
        run sinf anims rest s1 = .ok (t, tr) ∧ trace = calls :: tr := by
  rw [run]
  cases ht : tick sinf anims inp s with
  | error e => simp [bind, Except.bind]
  | ok r =>
    obtain ⟨s1, calls⟩ := r
    simp only [bind, Except.bind]
    cases hr : run sinf anims rest s1 with
    | error e => simp [hr]
    | ok r2 =>
      obtain ⟨s2, tr⟩ := r2
      simp only [pure, Except.pure]
      constructor
      · intro h
        injection h with h
        injection h with h1 h2
        exact ⟨s1, calls, tr, rfl, by rw [hr, h1], h2.symm⟩
      · rintro ⟨s1b, callsb, trb, hb, hrb, rfl⟩
        injection hb with hb
        injection hb with hb1 hb2
        subst hb1 hb2
        rw [hr] at hrb
        injection hrb with hrb
        injection hrb with e1 e2
        rw [e1, e2]

theorem run_nil_eq_ok_iff (sinf : α → α) (anims : List ModelAnimation)
    (s t : AnimState) (trace : List (List (Call α))) :
    run sinf anims [] s = .ok (t, trace) ↔ t = s ∧ trace = [] := by
  simp [run, pure, Except.pure, eq_comm]

theorem reachable_of_run (sinf : α → α) (anims : List ModelAnimation)
    (inputs : List (TickInput α)) :
    ∀ (s t : AnimState) (trace : List (List (Call α))),
      Reachable sinf anims s → run sinf anims inputs s = .ok (t, trace) →
      Reachable sinf anims t := by
  induction inputs with
  | nil =>
    intro s t trace hs h
    obtain ⟨rfl, -⟩ := (run_nil_eq_ok_iff sinf anims s t trace).1 h
    exact hs
  | cons inp rest ih =>
    intro s t trace hs h
    obtain ⟨s1, calls, tr, ht, hr, -⟩ := (run_cons_eq_ok_iff sinf anims inp rest s t trace).1 h
    exact ih s1 t tr (Reachable.tick hs ht) hr

theorem animsCount_toUnsigned {anims : List ModelAnimation}
    (hhi : animsCount anims ≤ INT_MAX) : toUnsigned (animsCount anims) = anims.length :=
  toUnsigned_natCast hhi

theorem length_pos_of_animsCount {anims : List ModelAnimation}
    (hlo : 0 < animsCount anims) : 0 < anims.length := by
  unfold animsCount at hlo; omega

/-! ## Invariants of the clip indices -/

theorem reachable_index1_lt (sinf : α → α) (anims : List ModelAnimation)
    (hlo : 0 < animsCount anims) (hhi : animsCount anims ≤ INT_MAX)
    {s : AnimState} (hs : Reachable sinf anims s) : s.animIndex1 < anims.length := by
  induction hs with
  | init => exact length_pos_of_animsCount hlo
  | tick _ ht ih =>
    rw [(tick_index sinf anims _ _ _ _ ht).1, animsCount_toUnsigned hhi]
    exact switchIndex_lt (length_pos_of_animsCount hlo) _ _ ih

theorem reachable_index2_lt (sinf : α → α) (anims : List ModelAnimation)
    (hlo : 2 ≤ animsCount anims) (hhi : animsCount anims ≤ INT_MAX)
    {s : AnimState} (hs : Reachable sinf anims s) : s.animIndex2 < anims.length := by
  have hlen : 2 ≤ anims.length := by unfold animsCount at hlo; omega
  induction hs with
  | init => exact hlen
  | tick _ ht ih =>
    rw [(tick_index sinf anims _ _ _ _ ht).2, animsCount_toUnsigned hhi]
    exact switchIndex_lt (by omega) _ _ ih

theorem select_then_clip (anims : List ModelAnimation)
    (hlo : 0 < animsCount anims) (hhi : animsCount anims ≤ INT_MAX) (keyT keyG : Bool)
    (s : AnimState) :
    ∃ s1, selectAnimation (animsCount anims) keyT keyG s = .ok s1 ∧
      s1.animIndex1 = switchIndex anims.length keyT keyG s.animIndex1 ∧
      s1.animIndex2 = switchIndex anims.length keyT keyG s.animIndex2 := by
  have hn := animsCount_toUnsigned hhi
  have hn0 : toUnsigned (animsCount anims) ≠ 0 := by
    rw [hn]; exact Nat.pos_iff_ne_zero.1 (length_pos_of_animsCount hlo)
  refine ⟨_, selectAnimation_ok hn0 keyT keyG s, ?_, ?_⟩ <;> simp [hn]

theorem run_index (sinf : α → α) (anims : List ModelAnimation) (inputs : List (TickInput α)) :
    ∀ (s t : AnimState) (trace : List (List (Call α))),
      run sinf anims inputs s = .ok (t, trace) →
      t.animIndex1 = switchIndices (toUnsigned (animsCount anims)) inputs s.animIndex1 ∧
      t.animIndex2 = switchIndices (toUnsigned (animsCount anims)) inputs s.animIndex2 := by
  induction inputs with
  | nil =>
    intro s t trace h
    obtain ⟨rfl, -⟩ := (run_nil_eq_ok_iff sinf anims s t trace).1 h
    exact ⟨rfl, rfl⟩
  | cons inp rest ih =>
    intro s t trace h
    obtain ⟨s1, calls, tr, ht, hr, -⟩ := (run_cons_eq_ok_iff sinf anims inp rest s t trace).1 h
    obtain ⟨e1, e2⟩ := tick_index sinf anims inp s s1 calls ht
    obtain ⟨r1, r2⟩ := ih s1 t tr hr
    rw [r1, r2, e1, e2]
    exact ⟨rfl, rfl⟩

theorem run_completes (sinf : α → α) (anims : List ModelAnimation)
    (hlo : 0 < animsCount anims) (hhi : animsCount anims ≤ INT_MAX)
    (hpos : ∀ a ∈ anims, 0 < a.frameCount ∧ a.frameCount ≤ INT_MAX)
    (inputs : List (TickInput α)) :
    ∀ s : AnimState, s.animIndex1 < anims.length → s.animIndex2 < anims.length →
      ∃ t trace, run sinf anims inputs s = .ok (t, trace) := by
  have hn := length_pos_of_animsCount hlo
  induction inputs with
  | nil => intro s _ _; exact ⟨s, [], rfl⟩
  | cons inp rest ih =>
    intro s h1 h2
    obtain ⟨s1, calls, ht⟩ := tick_completes sinf anims hlo hhi hpos inp s
      (switchIndex_lt hn _ _ h1) (switchIndex_lt hn _ _ h2)
    obtain ⟨e1, e2⟩ := tick_index sinf anims inp s s1 calls ht
    rw [animsCount_toUnsigned hhi] at e1 e2
    obtain ⟨t, tr, hr⟩ := ih s1 (by rw [e1]; exact switchIndex_lt hn _ _ h1)
      (by rw [e2]; exact switchIndex_lt hn _ _ h2)
    exact ⟨t, calls :: tr, (run_cons_eq_ok_iff sinf anims inp rest s t _).2
      ⟨s1, calls, tr, ht, hr, rfl⟩⟩

theorem run_completes_of_switches (sinf : α → α) (anims : List ModelAnimation)
    (hlo : 0 < animsCount anims) (hhi : animsCount anims ≤ INT_MAX)
    (hpos : ∀ a ∈ anims, 0 < a.frameCount ∧ a.frameCount ≤ INT_MAX)
    (inputs : List (TickInput α))
    (hsw : ∀ inp ∈ inputs, inp.keyT = true ∨ inp.keyG = true) (s : AnimState) :
    ∃ t trace, run sinf anims inputs s = .ok (t, trace) := by
  have hn := length_pos_of_animsCount hlo
  cases inputs with
  | nil => exact ⟨s, [], rfl⟩
  | cons inp rest =>
    have hk := hsw inp (List.mem_cons_self _ _)
    obtain ⟨s1, calls, ht⟩ := tick_completes sinf anims hlo hhi hpos inp s
      (switchIndex_lt_of_key hn hk _) (switchIndex_lt_of_key hn hk _)
    obtain ⟨e1, e2⟩ := tick_index sinf anims inp s s1 calls ht
    rw [animsCount_toUnsigned hhi] at e1 e2
    obtain ⟨t, tr, hr⟩ := run_completes sinf anims hlo hhi hpos rest s1
      (by rw [e1]; exact switchIndex_lt_of_key hn hk _)
      (by rw [e2]; exact switchIndex_lt_of_key hn hk _)
    exact ⟨t, calls :: tr, (run_cons_eq_ok_iff sinf anims inp rest s t _).2
      ⟨s1, calls, tr, ht, hr, rfl⟩⟩

theorem tick_ok_index_lt (sinf : α → α) (anims : List ModelAnimation) (inp : TickInput α)
    (s t : AnimState) (calls : List (Call α)) (h : tick sinf anims inp s = .ok (t, calls)) :
    t.animIndex1 < anims.length ∧ t.animIndex2 < anims.length := by
  obtain ⟨s1, a1, a2, -, ha1, -, ha2, -, rfl, -⟩ := (tick_eq_ok_iff sinf anims inp s t calls).1 h
  obtain ⟨h1, -⟩ := List.getElem?_eq_some.1 ha1
  obtain ⟨h2, -⟩ := List.getElem?_eq_some.1 ha2
  exact ⟨h1, h2⟩

theorem reachable_cases (sinf : α → α) (anims : List ModelAnimation)
    {s : AnimState} (hs : Reachable sinf anims s) :
    s = initState ∨ (s.animIndex1 < anims.length ∧ s.animIndex2 < anims.length) := by
  cases hs with
  | init => exact Or.inl rfl
  | tick _ ht => exact Or.inr (tick_ok_index_lt sinf anims _ _ _ _ ht)

theorem tick_completes_of_reachable (sinf : α → α) (anims : List ModelAnimation)
    (hpos : ∀ a ∈ anims, 0 < a.frameCount ∧ a.frameCount ≤ INT_MAX)
    (hlo : 0 < animsCount anims) (hhi : animsCount anims ≤ INT_MAX)
    (s : AnimState) (inp : TickInput α) (hs : Reachable sinf anims s)
    (hinit : s = initState → 2 ≤ animsCount anims ∨ inp.keyT = true ∨ inp.keyG = true) :
    ∃ t calls, tick sinf anims inp s = .ok (t, calls) := by
  have hn := length_pos_of_animsCount hlo
  have hin : (inp.keyT = true ∨ inp.keyG = true) ∨
      (s.animIndex1 < anims.length ∧ s.animIndex2 < anims.length) := by
    rcases reachable_cases sinf anims hs with h0 | hr
    · rcases hinit h0 with h2 | hk
      · refine Or.inr ?_
        have hlen : 2 ≤ anims.length := by unfold animsCount at h2; omega
        rw [h0]
        exact ⟨hn, hlen⟩
      · exact Or.inl hk
    · exact Or.inr hr
  rcases hin with hk | ⟨h1, h2⟩
  · exact tick_completes sinf anims hlo hhi hpos inp s
      (switchIndex_lt_of_key hn hk _) (switchIndex_lt_of_key hn hk _)
  · exact tick_completes sinf anims hlo hhi hpos inp s
      (switchIndex_lt hn _ _ h1) (switchIndex_lt hn _ _ h2)

theorem reachable_offset (sinf : α → α) (anims : List ModelAnimation)
    (hlo : 2 ≤ animsCount anims) (hhi : animsCount anims ≤ INT_MAX)
    {s : AnimState} (hs : Reachable sinf anims s) :
    (s.animIndex2 : Int) = ((s.animIndex1 : Int) + 1) % animsCount anims := by
  have hlen : 2 ≤ anims.length := by unfold animsCount at hlo; omega
  have hmax : ((anims.length : Nat) : Int) ≤ INT_MAX := hhi
  induction hs with
  | init =>
    unfold animsCount
    simp only [initState, Nat.cast_zero, Nat.cast_one, zero_add]
    rw [Int.emod_eq_of_lt (by omega) (by omega)]
  | @tick s s1 inp calls hreach ht ih =>
    have h1 := reachable_index1_lt sinf anims (by omega) hhi hreach
    have h2 := reachable_index2_lt sinf anims hlo hhi hreach
    obtain ⟨e1, e2⟩ := tick_index sinf anims inp s s1 calls ht
    rw [animsCount_toUnsigned hhi] at e1 e2
    rw [e1, e2, switchIndex_cast (by omega) hmax _ _ h1, switchIndex_cast (by omega) hmax _ _ h2,
      ih]
    unfold animsCount
    rw [Int.emod_add_emod, Int.emod_add_emod]
    congr 1
    ring

end TickLemmas

/-! ## Claims on the clip indices -/

section IndexClaims

variable {α : Type} [Zero α] [One α] [Add α] [Div α] [OfNat α 2]

/-- C1, amended. For every clip count `animsCount > 0` (an `int`), in every
reachable state the clip index of instance 1 lies in `[0, animsCount)`, and so
does the clip index of instance 2 unless the state is the initial state and
there is a single clip; the reads `modelAnimations[animIndex1]` and
`modelAnimations[animIndex2]` of the next iteration are then in range whatever
the keys. -/
theorem clip_index_invariant (sinf : α → α) (anims : List ModelAnimation)
    (hlo : 0 < animsCount anims) (hhi : animsCount anims ≤ INT_MAX)
    (s : AnimState) (hs : Reachable sinf anims s) :
    ((0 ≤ (s.animIndex1 : Int) ∧ (s.animIndex1 : Int) < animsCount anims) ∧
      ∀ keyT keyG, ∃ s1 anim, selectAnimation (animsCount anims) keyT keyG s = .ok s1 ∧
        clipAt anims s1.animIndex1 = .ok anim) ∧
    ((s = initState → 2 ≤ animsCount anims) →
      (0 ≤ (s.animIndex2 : Int) ∧ (s.animIndex2 : Int) < animsCount anims) ∧
      ∀ keyT keyG, ∃ s1 anim, selectAnimation (animsCount anims) keyT keyG s = .ok s1 ∧
        clipAt anims s1.animIndex2 = .ok anim) := by
  have hn := length_pos_of_animsCount hlo
  have h1 := reachable_index1_lt sinf anims hlo hhi hs
  refine ⟨⟨⟨Int.natCast_nonneg _, ?_⟩, ?_⟩, ?_⟩
  · unfold animsCount; exact_mod_cast h1
  · intro keyT keyG
    obtain ⟨s1, hsel, e1, -⟩ := select_then_clip anims hlo hhi keyT keyG s
    obtain ⟨a, ha⟩ := clip_exists anims s1.animIndex1
      (by rw [e1]; exact switchIndex_lt hn _ _ h1)
    exact ⟨s1, a, hsel, clipAt_eq_ok.2 ha⟩
  · intro hinit
    have h2 : s.animIndex2 < anims.length := by
      rcases reachable_cases sinf anims hs with h0 | hr
      · have h2lo := hinit h0
        have hlen : 2 ≤ anims.length := by unfold animsCount at h2lo; omega
        rw [h0]
        exact hlen
      · exact hr.2
    refine ⟨⟨Int.natCast_nonneg _, ?_⟩, ?_⟩
    · unfold animsCount; exact_mod_cast h2
    · intro keyT keyG
      obtain ⟨s1, hsel, -, e2⟩ := select_then_clip anims hlo hhi keyT keyG s
      obtain ⟨a, ha⟩ := clip_exists anims s1.animIndex2
        (by rw [e2]; exact switchIndex_lt hn _ _ h2)
      exact ⟨s1, a, hsel, clipAt_eq_ok.2 ha⟩

/-- C2. For every clip count `C > 0` (an `int`) and every sequence of iterations
that completes from the initial state, with `k` "next" and `j` "previous" events
in any order, the clip index of instance 1 is `(k - j) mod C` and lies in
`[0, C)`; and a sequence of switch events always completes when every clip has a
positive frame count. -/
theorem clip_switch_arithmetic (sinf : α → α) (anims : List ModelAnimation)
    (hlo : 0 < animsCount anims) (hhi : animsCount anims ≤ INT_MAX) :
    (∀ (inputs : List (TickInput α)) (s : AnimState) (trace : List (List (Call α))),
      run sinf anims inputs initState = .ok (s, trace) →
        (s.animIndex1 : Int) =
          (((countNext inputs : Nat) : Int) - (countPrevious inputs : Nat)) % animsCount anims ∧
        0 ≤ (s.animIndex1 : Int) ∧ (s.animIndex1 : Int) < animsCount anims) ∧
    ((∀ a ∈ anims, 0 < a.frameCount ∧ a.frameCount ≤ INT_MAX) →
      ∀ inputs : List (TickInput α), (∀ inp ∈ inputs, inp.keyT = true ∨ inp.keyG = true) →
        ∃ s trace, run sinf anims inputs initState = .ok (s, trace)) := by
  have hn := length_pos_of_animsCount hlo
  refine ⟨?_, fun hpos inputs hsw =>
    run_completes_of_switches sinf anims hlo hhi hpos inputs hsw initState⟩
  intro inputs s trace h
  obtain ⟨e1, -⟩ := run_index sinf anims inputs initState s trace h
  rw [animsCount_toUnsigned hhi] at e1
  obtain ⟨c1, c2⟩ := switchIndices_cast hn hhi inputs initState.animIndex1 hn
  rw [e1]
  refine ⟨?_, Int.natCast_nonneg _, ?_⟩
  · rw [c2]
    simp [initState, animsCount]
  · unfold animsCount; exact_mod_cast c1

/-- C5. For every clip array with `animsCount > 0` clips, each with a positive
frame count (frame counts may differ between clips), and every state, reachable
or not, an iteration with a "next" or a "previous" event completes: no division
by zero, no clip read out of range; it leaves both clip indices in
`[0, animsCount)`. -/
theorem switching_never_crashes (sinf : α → α) (anims : List ModelAnimation)
    (hlo : 0 < animsCount anims) (hhi : animsCount anims ≤ INT_MAX)
    (hpos : ∀ a ∈ anims, 0 < a.frameCount ∧ a.frameCount ≤ INT_MAX)
    (s : AnimState) (inp : TickInput α) (hkey : inp.keyT = true ∨ inp.keyG = true) :
    ∃ t calls, tick sinf anims inp s = .ok (t, calls) ∧
      (t.animIndex1 : Int) < animsCount anims ∧ (t.animIndex2 : Int) < animsCount anims := by
  have hn := length_pos_of_animsCount hlo
  obtain ⟨t, calls, ht⟩ := tick_completes sinf anims hlo hhi hpos inp s
    (switchIndex_lt_of_key hn hkey _) (switchIndex_lt_of_key hn hkey _)
  obtain ⟨e1, e2⟩ := tick_index sinf anims inp s t calls ht
  rw [animsCount_toUnsigned hhi] at e1 e2
  refine ⟨t, calls, ht, ?_, ?_⟩
  · rw [e1]; unfold animsCount; exact_mod_cast switchIndex_lt_of_key hn hkey _
  · rw [e2]; unfold animsCount; exact_mod_cast switchIndex_lt_of_key hn hkey _

/-- C10. For every clip count `C ≥ 2` (an `int`), in every reachable state
`animIndex2 = (animIndex1 + 1) mod C`, so the two instances never play the same
clip; after a sequence of iterations with `k` "next" and `j` "previous" events
the clip index of instance 2 is `(1 + k - j) mod C`; and every sequence of
iterations completes when every clip has a positive frame count. -/
theorem fixed_offset (sinf : α → α) (anims : List ModelAnimation)
    (hlo : 2 ≤ animsCount anims) (hhi : animsCount anims ≤ INT_MAX) :
    (∀ s : AnimState, Reachable sinf anims s →
      (s.animIndex2 : Int) = ((s.animIndex1 : Int) + 1) % animsCount anims ∧
      s.animIndex1 ≠ s.animIndex2) ∧
    (∀ (inputs : List (TickInput α)) (s : AnimState) (trace : List (List (Call α))),
      run sinf anims inputs initState = .ok (s, trace) →
        (s.animIndex2 : Int) =
          (1 + ((countNext inputs : Nat) : Int) - (countPrevious inputs : Nat)) % animsCount anims) ∧
    ((∀ a ∈ anims, 0 < a.frameCount ∧ a.frameCount ≤ INT_MAX) →
      ∀ inputs : List (TickInput α),
        ∃ s trace, run sinf anims inputs initState = .ok (s, trace)) := by
  have hlen : 2 ≤ anims.length := by unfold animsCount at hlo; omega
  refine ⟨?_, ?_, fun hpos inputs =>
    run_completes sinf anims (by omega) hhi hpos inputs initState
      (show 0 < anims.length by omega) (show 1 < anims.length by omega)⟩
  · intro s hs
    have hoff := reachable_offset sinf anims hlo hhi hs
    refine ⟨hoff, ?_⟩
    have h1 := reachable_index1_lt sinf anims (by omega) hhi hs
    unfold animsCount at hoff
    have hnat : s.animIndex2 = (s.animIndex1 + 1) % anims.length := by exact_mod_cast hoff
    intro heq
    rw [← heq] at hnat
    by_cases hlt : s.animIndex1 + 1 < anims.length
    · rw [Nat.mod_eq_of_lt hlt] at hnat; omega
    · have : s.animIndex1 + 1 = anims.length := by omega
      rw [this, Nat.mod_self] at hnat; omega
  · intro inputs s trace h
    obtain ⟨-, e2⟩ := run_index sinf anims inputs initState s trace h
    rw [animsCount_toUnsigned hhi] at e2
    obtain ⟨-, c2⟩ := switchIndices_cast (by omega) hhi inputs initState.animIndex2
      (show 1 < anims.length by omega)
    rw [e2, c2]
    simp only [initState, animsCount, Nat.cast_one]
    congr 1
    ring

end IndexClaims

/-- C1 as stated fails for a single clip: the initial state is reachable, its
`animIndex2` is 1, which is not below `animsCount = 1`, and an iteration without
a key event reads `modelAnimations[1]` out of range. -/
theorem clip_index_invariant_fails_single_clip :
    0 < animsCount singleClip ∧ Reachable sampleSinf singleClip initState ∧
    ¬ ((initState.animIndex2 : Int) < animsCount singleClip) ∧
    tick sampleSinf singleClip noKey initState = .error .clipIndexOutOfRange :=
  ⟨by decide, Reachable.init, by decide, rfl⟩

/-- Instance of C1 on five clips, in the initial state: both clip indices, 0 and
1, lie in `[0, 5)`. -/
theorem clip_index_invariant_witness :
    (0 < animsCount sampleClips ∧ animsCount sampleClips ≤ INT_MAX ∧
      2 ≤ animsCount sampleClips ∧ Reachable sampleSinf sampleClips initState) ∧
    (0 ≤ (initState.animIndex1 : Int) ∧ (initState.animIndex1 : Int) < animsCount sampleClips) ∧
    (0 ≤ (initState.animIndex2 : Int) ∧ (initState.animIndex2 : Int) < animsCount sampleClips) :=
  have h := clip_index_invariant sampleSinf sampleClips (by decide) (by decide) initState
    Reachable.init
  ⟨⟨by decide, by decide, by decide, Reachable.init⟩, h.1.1, (h.2 (fun _ => by decide)).1⟩

/-- Instance of C2: with five clips, three "next" events give clip index 3 and
one further "previous" event gives clip index 2. -/
theorem clip_switch_arithmetic_witness :
    (0 < animsCount sampleClips ∧ animsCount sampleClips ≤ INT_MAX) ∧
    (∃ s trace, run sampleSinf sampleClips [pressT, pressT, pressT] initState = .ok (s, trace) ∧
      (s.animIndex1 : Int) = 3) ∧
    (∃ s trace,
      run sampleSinf sampleClips [pressT, pressT, pressT, pressG] initState = .ok (s, trace) ∧
      (s.animIndex1 : Int) = 2) := by
  have h := clip_switch_arithmetic sampleSinf sampleClips (by decide) (by decide)
  refine ⟨⟨by decide, by decide⟩, ?_, ?_⟩
  · obtain ⟨s, trace, hr⟩ := h.2 (by decide) [pressT, pressT, pressT] (by decide)
    exact ⟨s, trace, hr, (h.1 _ _ _ hr).1.trans (by decide)⟩
  · obtain ⟨s, trace, hr⟩ := h.2 (by decide) [pressT, pressT, pressT, pressG] (by decide)
    exact ⟨s, trace, hr, (h.1 _ _ _ hr).1.trans (by decide)⟩

/-- Instance of C5: a "previous" event in the initial state of a single clip. -/
theorem switching_never_crashes_witness :
    (0 < animsCount singleClip ∧ (pressG.keyT = true ∨ pressG.keyG = true)) ∧
    ∃ t calls, tick sampleSinf singleClip pressG initState = .ok (t, calls) ∧
      (t.animIndex1 : Int) < animsCount singleClip ∧
      (t.animIndex2 : Int) < animsCount singleClip :=
  ⟨⟨by decide, by decide⟩,
    switching_never_crashes sampleSinf singleClip (by decide) (by decide) (by decide)
      initState pressG (by decide)⟩

/-- Instance of C10 on five clips after the events T, G, G. -/
theorem fixed_offset_witness :
    (2 ≤ animsCount sampleClips ∧ animsCount sampleClips ≤ INT_MAX) ∧
    ∃ s trace, run sampleSinf sampleClips [pressT, pressG, pressG] initState = .ok (s, trace) ∧
      s.animIndex1 = 4 ∧ (s.animIndex2 : Int) = 0 ∧ s.animIndex1 ≠ s.animIndex2 := by
  have h := fixed_offset sampleSinf sampleClips (by decide) (by decide)
  have hr : run sampleSinf sampleClips [pressT, pressG, pressG] initState =
      .ok ({ animIndex1 := 4, animCurrentFrame1 := 3, animIndex2 := 0, animCurrentFrame2 := 3 },
        _) := rfl
  exact ⟨⟨by decide, by decide⟩, _, _, hr, rfl, (h.2.1 _ _ _ hr).trans (by decide),
    (h.1 _ (reachable_of_run sampleSinf sampleClips _ _ _ _ Reachable.init hr)).2⟩

section FrameClaims

variable {α : Type} [Zero α] [One α] [Add α] [Div α] [OfNat α 2]

theorem run_idle (sinf : α → α) (anims : List ModelAnimation) (anim1 anim2 : ModelAnimation)
    (hF : 0 < anim1.frameCount) (hFmax : anim1.frameCount ≤ INT_MAX)
    (hG : toUnsigned anim2.frameCount ≠ 0)
    (inputs : List (TickInput α))
    (hidle : ∀ inp ∈ inputs, inp.keyT = false ∧ inp.keyG = false) :
    ∀ s : AnimState, anims[s.animIndex1]? = some anim1 → anims[s.animIndex2]? = some anim2 →
      s.animCurrentFrame1 < anim1.frameCount.toNat →
      ∃ t trace, run sinf anims inputs s = .ok (t, trace) ∧
        t.animCurrentFrame1 = (s.animCurrentFrame1 + inputs.length) % anim1.frameCount.toNat ∧
        t.animIndex1 = s.animIndex1 ∧ t.animIndex2 = s.animIndex2 := by
  have hU : toUnsigned anim1.frameCount = anim1.frameCount.toNat :=
    toUnsigned_of_range (le_of_lt hF) hFmax
  have hbound : anim1.frameCount.toNat ≤ 2147483647 := by
    unfold INT_MAX at hFmax; omega
  induction inputs with
  | nil =>
    intro s _ _ hc
    exact ⟨s, [], rfl, by simp [Nat.mod_eq_of_lt hc], rfl, rfl⟩
  | cons inp rest ih =>
    intro s h1 h2 hc
    obtain ⟨hT, hGk⟩ := hidle inp (List.mem_cons_self _ _)
    have hsel : selectAnimation (animsCount anims) inp.keyT inp.keyG s = .ok s := by
      rw [hT, hGk]; rfl
    have hz1 : toUnsigned anim1.frameCount ≠ 0 := by rw [hU]; omega
    have ht := (tick_eq_ok_iff sinf anims inp s _ _).2
      ⟨s, anim1, anim2, hsel, h1, hz1, h2, hG, rfl, rfl⟩
    have hadd : uadd s.animCurrentFrame1 1 = s.animCurrentFrame1 + 1 := by
      unfold uadd UINT_RANGE; omega
    obtain ⟨t, tr, hr, hfr, hi1, hi2⟩ := ih (fun x hx => hidle x (List.mem_cons_of_mem _ hx))
      { s with
        animCurrentFrame1 := uadd s.animCurrentFrame1 1 % toUnsigned anim1.frameCount,
        animCurrentFrame2 := uadd s.animCurrentFrame2 1 % toUnsigned anim2.frameCount }
      h1 h2 (by rw [hU]; exact Nat.mod_lt _ (by omega))
    refine ⟨t, _, (run_cons_eq_ok_iff sinf anims inp rest s t _).2 ⟨_, _, tr, ht, hr, rfl⟩,
      ?_, hi1, hi2⟩
    rw [hfr]
    simp only [hadd, hU, List.length_cons, Nat.mod_add_mod]
    congr 1
    omega

/-- C3. For every frame count `F > 0` (an `int`) of the clip that instance 1
plays and every number `n` of iterations without a key event from the initial
state, the loop completes the `n` iterations and `animCurrentFrame1`, which
starts at 0, equals `n mod F`; instance 1 still plays clip 0. (Instance 2 plays
clip 1, whose frame count must not be zero for an iteration to complete.) -/
theorem frame_counter_arithmetic (sinf : α → α) (anims : List ModelAnimation)
    (anim1 anim2 : ModelAnimation)
    (h1 : clipAt anims 0 = .ok anim1) (h2 : clipAt anims 1 = .ok anim2)
    (hF : 0 < anim1.frameCount) (hFmax : anim1.frameCount ≤ INT_MAX)
    (hG : toUnsigned anim2.frameCount ≠ 0)
    (inputs : List (TickInput α))
    (hidle : ∀ inp ∈ inputs, inp.keyT = false ∧ inp.keyG = false) :
    ∃ s trace, run sinf anims inputs initState = .ok (s, trace) ∧
      (s.animCurrentFrame1 : Int) = (inputs.length : Int) % anim1.frameCount ∧
      s.animIndex1 = 0 := by
  obtain ⟨s, trace, hr, hfr, hi1, -⟩ := run_idle sinf anims anim1 anim2 hF hFmax hG inputs hidle
    initState (clipAt_eq_ok.1 h1) (clipAt_eq_ok.1 h2)
    (by simp only [initState]; omega)
  refine ⟨s, trace, hr, ?_, hi1⟩
  rw [hfr]
  simp only [initState, zero_add, Int.natCast_mod]
  rw [Int.toNat_of_nonneg (le_of_lt hF)]

/-- C4. For every clip array in which every clip has a positive frame count
(an `int`), after every iteration that completes, from any state and with or
without a clip switch, the frame counter of each instance lies in
`[0, frameCount)` of the clip that the instance then plays, and the one discrete
pose request of the iteration is for the clip of instance 1, with a frame index
in that range. And the iteration does complete from every reachable state, the
initial state of a single clip without a key event apart. -/
theorem frame_counter_invariant (sinf : α → α) (anims : List ModelAnimation)
    (hpos : ∀ a ∈ anims, 0 < a.frameCount ∧ a.frameCount ≤ INT_MAX)
    (s : AnimState) (inp : TickInput α) :
    (∀ (t : AnimState) (calls : List (Call α)), tick sinf anims inp s = .ok (t, calls) →
      ∃ anim1 anim2,
        clipAt anims t.animIndex1 = .ok anim1 ∧ clipAt anims t.animIndex2 = .ok anim2 ∧
        (0 ≤ (t.animCurrentFrame1 : Int) ∧ (t.animCurrentFrame1 : Int) < anim1.frameCount) ∧
        (0 ≤ (t.animCurrentFrame2 : Int) ∧ (t.animCurrentFrame2 : Int) < anim2.frameCount) ∧
        Call.UpdateModelAnimationBonesPose anim1 t.animCurrentFrame1 .pose1 ∈ calls ∧
        ∀ anim frame pose, Call.UpdateModelAnimationBonesPose anim frame pose ∈ calls →
          anim = anim1 ∧ pose = .pose1 ∧
          0 ≤ (frame : Int) ∧ (frame : Int) < anim1.frameCount) ∧
    (0 < animsCount anims → animsCount anims ≤ INT_MAX → Reachable sinf anims s →
      (s = initState → 2 ≤ animsCount anims ∨ inp.keyT = true ∨ inp.keyG = true) →
      ∃ t calls, tick sinf anims inp s = .ok (t, calls)) := by
  refine ⟨?_, fun hlo hhi hs hinit =>
    tick_completes_of_reachable sinf anims hpos hlo hhi s inp hs hinit⟩
  intro t calls h
  obtain ⟨s1, a1, a2, -, ha1, -, ha2, -, rfl, rfl⟩ := (tick_eq_ok_iff sinf anims inp s t calls).1 h
  obtain ⟨hf1, hp1⟩ := frameCount_toUnsigned hpos ha1
  obtain ⟨hf2, hp2⟩ := frameCount_toUnsigned hpos ha2
  have hlt1 : uadd s1.animCurrentFrame1 1 % toUnsigned a1.frameCount < a1.frameCount.toNat := by
    rw [hf1]; exact Nat.mod_lt _ hp1
  have hlt2 : uadd s1.animCurrentFrame2 1 % toUnsigned a2.frameCount < a2.frameCount.toNat := by
    rw [hf2]; exact Nat.mod_lt _ hp2
  have hI1 : ((uadd s1.animCurrentFrame1 1 % toUnsigned a1.frameCount : Nat) : Int)
      < a1.frameCount := by omega
  have hI2 : ((uadd s1.animCurrentFrame2 1 % toUnsigned a2.frameCount : Nat) : Int)
      < a2.frameCount := by omega
  refine ⟨a1, a2, clipAt_eq_ok.2 ha1, clipAt_eq_ok.2 ha2, ⟨Int.natCast_nonneg _, hI1⟩,
    ⟨Int.natCast_nonneg _, hI2⟩, by simp [tickCalls], ?_⟩
  intro anim frame pose hmem
  simp only [tickCalls, List.mem_cons, Call.UpdateModelAnimationBonesPose.injEq,
    List.mem_singleton, reduceCtorEq, or_false, List.not_mem_nil] at hmem
  obtain ⟨rfl, rfl, rfl⟩ := hmem
  exact ⟨rfl, rfl, Int.natCast_nonneg _, hI1⟩

/-- C8. In every iteration that completes, exactly one interpolated pose request
is made; it is for the clip that instance 2 then plays, between frame 0 and
frame `frameCount / 2` as C computes it (the quotient truncated), into pose
buffer 2; and when the frame count `F` of that clip is positive,
`frameCount / 2` is `floor(F / 2)` and both frame indices lie in `[0, F)`. And
the iteration does complete from every reachable state when every clip has a
positive frame count, the initial state of a single clip without a key event
apart. -/
theorem interpolation_frames (sinf : α → α) (anims : List ModelAnimation)
    (s : AnimState) (inp : TickInput α) :
    (∀ (t : AnimState) (calls : List (Call α)), tick sinf anims inp s = .ok (t, calls) →
      ∃ anim2, clipAt anims t.animIndex2 = .ok anim2 ∧
        Call.InterpolateModelAnimationBonesPose anim2 0 (Int.tdiv anim2.frameCount 2)
          (blendParam (sinf inp.time)) .pose2 ∈ calls ∧
        (∀ anim frameA frameB param pose,
          Call.InterpolateModelAnimationBonesPose anim frameA frameB param pose ∈ calls →
            anim = anim2 ∧ frameA = 0 ∧ frameB = Int.tdiv anim2.frameCount 2 ∧
            param = blendParam (sinf inp.time) ∧ pose = .pose2) ∧
        (0 < anim2.frameCount →
          Int.tdiv anim2.frameCount 2 = anim2.frameCount / 2 ∧
          (0 : Int) < anim2.frameCount ∧
          0 ≤ Int.tdiv anim2.frameCount 2 ∧ Int.tdiv anim2.frameCount 2 < anim2.frameCount)) ∧
    ((∀ a ∈ anims, 0 < a.frameCount ∧ a.frameCount ≤ INT_MAX) →
      0 < animsCount anims → animsCount anims ≤ INT_MAX → Reachable sinf anims s →
      (s = initState → 2 ≤ animsCount anims ∨ inp.keyT = true ∨ inp.keyG = true) →
      ∃ t calls, tick sinf anims inp s = .ok (t, calls)) := by
  refine ⟨?_, fun hpos hlo hhi hs hinit =>
    tick_completes_of_reachable sinf anims hpos hlo hhi s inp hs hinit⟩
  intro t calls h
  obtain ⟨s1, a1, a2, -, -, -, ha2, -, rfl, rfl⟩ := (tick_eq_ok_iff sinf anims inp s t calls).1 h
  refine ⟨a2, clipAt_eq_ok.2 ha2, by simp [tickCalls], ?_, ?_⟩
  · intro anim frameA frameB param pose hmem
    simp only [tickCalls, List.mem_cons, Call.InterpolateModelAnimationBonesPose.injEq,
      List.mem_singleton, reduceCtorEq, or_false, false_or, List.not_mem_nil] at hmem
    obtain ⟨rfl, rfl, rfl, rfl, rfl⟩ := hmem
    exact ⟨rfl, rfl, rfl, rfl, rfl⟩
  · intro hF
    have hdiv : Int.tdiv a2.frameCount 2 = a2.frameCount / 2 :=
      Int.tdiv_eq_ediv (le_of_lt hF) (by decide)
    rw [hdiv]
    refine ⟨rfl, hF, ?_, ?_⟩ <;> omega

theorem selectAnimation_erase (c : Int) (keyT keyG : Bool) (s : AnimState) :
    selectAnimation c keyT keyG (eraseFrame2 s) =
      (selectAnimation c keyT keyG s).map eraseFrame2 := by
  by_cases hc : toUnsigned c = 0 <;> cases keyT <;> cases keyG <;>
    simp [selectAnimation, umod, hc, bind, Except.bind, pure, Except.pure, Except.map,
      eraseFrame2]

theorem tick_erase (sinf : α → α) (anims : List ModelAnimation) (inp : TickInput α)
    (s : AnimState) :
    (tick sinf anims inp (eraseFrame2 s)).map observe = (tick sinf anims inp s).map observe := by
  unfold tick
  rw [selectAnimation_erase]
  cases hsel : selectAnimation (animsCount anims) inp.keyT inp.keyG s with
  | error e => simp [bind, Except.bind, Except.map]
  | ok s1 =>
    cases h1 : anims[s1.animIndex1]? with
    | none => simp [bind, Except.bind, Except.map, clipAt, h1, eraseFrame2]
    | some a1 =>
      by_cases hf1 : toUnsigned a1.frameCount = 0
      · simp [bind, Except.bind, Except.map, clipAt, h1, umod, hf1, eraseFrame2]
      · cases h2 : anims[s1.animIndex2]? with
        | none => simp [bind, Except.bind, Except.map, clipAt, h1, h2, umod, hf1, eraseFrame2]
        | some a2 =>
          by_cases hf2 : toUnsigned a2.frameCount = 0
          · simp [bind, Except.bind, Except.map, clipAt, h1, h2, umod, hf1, hf2, eraseFrame2]
          · simp [bind, Except.bind, Except.map, clipAt, h1, h2, umod, hf1, hf2, pure,
              Except.pure, eraseFrame2, observe]

theorem tick_observe (sinf : α → α) (anims : List ModelAnimation) (inp : TickInput α)
    (s s2 : AnimState) (h : eraseFrame2 s = eraseFrame2 s2) :
    (tick sinf anims inp s).map observe = (tick sinf anims inp s2).map observe := by
  rw [← tick_erase sinf anims inp s, ← tick_erase sinf anims inp s2, h]

theorem run_observe (sinf : α → α) (anims : List ModelAnimation)
    (inputs : List (TickInput α)) :
    ∀ s s2 : AnimState, eraseFrame2 s = eraseFrame2 s2 →
      (run sinf anims inputs s).map observe = (run sinf anims inputs s2).map observe := by
  induction inputs with
  | nil =>
    intro s s2 h
    simp [run, pure, Except.pure, Except.map, observe, h]
  | cons inp rest ih =>
    intro s s2 h
    have ht := tick_observe sinf anims inp s s2 h
    rw [run, run]
    cases h1 : tick sinf anims inp s with
    | error e =>
      cases h2 : tick sinf anims inp s2 with
      | error e2 =>
        rw [h1, h2] at ht
        simp only [Except.map, Except.error.injEq] at ht
        simp [bind, Except.bind, Except.map, ht]
      | ok r2 => rw [h1, h2] at ht; simp [Except.map] at ht
    | ok r1 =>
      cases h2 : tick sinf anims inp s2 with
      | error e2 => rw [h1, h2] at ht; simp [Except.map] at ht
      | ok r2 =>
        obtain ⟨t, calls⟩ := r1
        obtain ⟨t2, calls2⟩ := r2
        rw [h1, h2] at ht
        simp only [Except.map, Except.ok.injEq, observe, Prod.mk.injEq] at ht
        obtain ⟨he, rfl⟩ := ht
        have hr := ih t t2 he
        simp only [bind, Except.bind]
        cases h3 : run sinf anims rest t with
        | error e =>
          cases h4 : run sinf anims rest t2 with
          | error e2 =>
            rw [h3, h4] at hr
            simp only [Except.map, Except.error.injEq] at hr
            simp [Except.map, hr]
          | ok q2 => rw [h3, h4] at hr; simp [Except.map] at hr
        | ok q1 =>
          cases h4 : run sinf anims rest t2 with
          | error e2 => rw [h3, h4] at hr; simp [Except.map] at hr
          | ok q2 =>
            obtain ⟨u, tr⟩ := q1
            obtain ⟨u2, tr2⟩ := q2
            rw [h3, h4] at hr
            simp only [Except.map, Except.ok.injEq, observe, Prod.mk.injEq] at hr
            obtain ⟨hu, rfl⟩ := hr
            simp [pure, Except.pure, Except.map, observe, hu]

/-- C9. Two runs of the loop on the same clip array and the same inputs (keys
and time values), from states that differ at most in `animCurrentFrame2`: if one
completes, the other completes with the same calls in every iteration (pose
requests, draw calls and all their arguments) and a final state that differs at
most in `animCurrentFrame2`; if one stops on an error, the other stops on the
same error. -/
theorem frame2_never_consumed (sinf : α → α) (anims : List ModelAnimation)
    (inputs : List (TickInput α)) (s s2 : AnimState)
    (h : eraseFrame2 s = eraseFrame2 s2) :
    (∀ t trace, run sinf anims inputs s = .ok (t, trace) →
      ∃ t2, run sinf anims inputs s2 = .ok (t2, trace) ∧ eraseFrame2 t2 = eraseFrame2 t) ∧
    (∀ e, run sinf anims inputs s = .error e → run sinf anims inputs s2 = .error e) := by
  have hr := run_observe sinf anims inputs s s2 h
  constructor
  · intro t trace h1
    cases h2 : run sinf anims inputs s2 with
    | error e2 => rw [h1, h2] at hr; simp [Except.map] at hr
    | ok q2 =>
      obtain ⟨t2, trace2⟩ := q2
      rw [h1, h2] at hr
      simp only [Except.map, Except.ok.injEq, observe, Prod.mk.injEq] at hr
      obtain ⟨hu, rfl⟩ := hr
      exact ⟨t2, rfl, hu.symm⟩
  · intro e h1
    cases h2 : run sinf anims inputs s2 with
    | error e2 =>
      rw [h1, h2] at hr
      simp only [Except.map, Except.error.injEq] at hr
      rw [hr]
    | ok q2 => rw [h1, h2] at hr; simp [Except.map] at hr

end FrameClaims

/-- Instance of C3: with a clip of 10 frames, `animCurrentFrame1` is 3 after 23
iterations without a key event. -/
theorem frame_counter_arithmetic_witness :
    ∃ s trace,
      run sampleSinf sampleClips (List.replicate 23 noKey) initState = .ok (s, trace) ∧
      s.animCurrentFrame1 = 3 := by
  obtain ⟨s, trace, hr, hfr, -⟩ :=
    frame_counter_arithmetic sampleSinf sampleClips
      { frameCount := 10, framePoses := 0 } { frameCount := 3, framePoses := 1 }
      rfl rfl (by decide) (by decide) (by decide) (List.replicate 23 noKey) (by decide)
  refine ⟨s, trace, hr, ?_⟩
  have h3 : ((List.replicate 23 noKey).length : Int) % (10 : Int) = ((3 : Nat) : Int) := by
    decide
  exact Int.ofNat.inj (hfr.trans h3)

/-- Instance of C4: the state with frame counter 9 on the clip of 10 frames is
reached after nine iterations without a key event; there a "next" event switches
instance 1 to the clip of 3 frames, the iteration completes and the frame index
of the discrete pose request is 1. -/
theorem frame_counter_invariant_witness :
    (∃ anim1 anim2, clipAt sampleClips 1 = .ok anim1 ∧ clipAt sampleClips 2 = .ok anim2 ∧
      (0 ≤ ((1 : Nat) : Int) ∧ ((1 : Nat) : Int) < anim1.frameCount) ∧
      (0 ≤ ((1 : Nat) : Int) ∧ ((1 : Nat) : Int) < anim2.frameCount) ∧
      Call.UpdateModelAnimationBonesPose anim1 1 .pose1 ∈
        tickCalls sampleSinf pressT { frameCount := 3, framePoses := 1 }
          { frameCount := 7, framePoses := 2 } 1 ∧
      ∀ anim frame pose, Call.UpdateModelAnimationBonesPose anim frame pose ∈
        tickCalls sampleSinf pressT { frameCount := 3, framePoses := 1 }
          { frameCount := 7, framePoses := 2 } 1 →
        anim = anim1 ∧ pose = .pose1 ∧ 0 ≤ (frame : Int) ∧ (frame : Int) < anim1.frameCount) ∧
    (∃ t calls, tick sampleSinf sampleClips pressT
      { animIndex1 := 0, animCurrentFrame1 := 9, animIndex2 := 1, animCurrentFrame2 := 0 }
      = .ok (t, calls)) :=
  have hreach : Reachable sampleSinf sampleClips
      { animIndex1 := 0, animCurrentFrame1 := 9, animIndex2 := 1, animCurrentFrame2 := 0 } :=
    reachable_of_run sampleSinf sampleClips (List.replicate 9 noKey) initState _ _
      Reachable.init rfl
  have h := frame_counter_invariant sampleSinf sampleClips (by decide)
    { animIndex1 := 0, animCurrentFrame1 := 9, animIndex2 := 1, animCurrentFrame2 := 0 } pressT
  ⟨h.1 { animIndex1 := 1, animCurrentFrame1 := 1, animIndex2 := 2, animCurrentFrame2 := 1 }
      _ rfl,
    h.2 (by decide) (by decide) hreach (fun _ => Or.inr (Or.inl rfl))⟩

/-- Instance of C8: in the initial state on five clips, an iteration without a
key event completes and its interpolated pose request is between frames 0 and 1
of the clip of 3 frames. -/
theorem interpolation_frames_witness :
    (∃ anim2, clipAt sampleClips 1 = .ok anim2 ∧
      Call.InterpolateModelAnimationBonesPose anim2 0 (Int.tdiv anim2.frameCount 2)
          (blendParam (sampleSinf noKey.time)) .pose2 ∈
        tickCalls sampleSinf noKey { frameCount := 10, framePoses := 0 }
          { frameCount := 3, framePoses := 1 } 1 ∧
      0 ≤ Int.tdiv anim2.frameCount 2 ∧ Int.tdiv anim2.frameCount 2 < anim2.frameCount) ∧
    (∃ t calls, tick sampleSinf sampleClips noKey initState = .ok (t, calls)) := by
  have h := interpolation_frames sampleSinf sampleClips initState noKey
  obtain ⟨anim2, hclip, hmem, -, hrange⟩ :=
    h.1 { animIndex1 := 0, animCurrentFrame1 := 1, animIndex2 := 1, animCurrentFrame2 := 1 }
      _ rfl
  have hF : 0 < anim2.frameCount := by
    have h3 : anim2 = { frameCount := 3, framePoses := 1 } := by
      have h4 : clipAt sampleClips 1 = .ok { frameCount := 3, framePoses := 1 } := rfl
      rw [hclip] at h4
      injection h4
    rw [h3]; decide
  exact ⟨⟨anim2, hclip, hmem, (hrange hF).2.2⟩,
    h.2 (by decide) (by decide) (by decide) Reachable.init (fun _ => Or.inl (by decide))⟩

/-- Instance of C9: two runs on five clips over an iteration without a key event
and a "next" event, one from the initial state and one from the initial state
with `animCurrentFrame2 = 7`: same calls, and final states that differ in
`animCurrentFrame2` only. -/
theorem frame2_never_consumed_witness :
    ∃ t t2 trace,
      run sampleSinf sampleClips [noKey, pressT] initState = .ok (t, trace) ∧
      run sampleSinf sampleClips [noKey, pressT]
        { animIndex1 := 0, animCurrentFrame1 := 0, animIndex2 := 1, animCurrentFrame2 := 7 }
        = .ok (t2, trace) ∧
      eraseFrame2 t2 = eraseFrame2 t ∧ t.animCurrentFrame2 = 2 ∧ t2.animCurrentFrame2 = 3 := by
  have hrun : run sampleSinf sampleClips [noKey, pressT] initState =
      .ok ({ animIndex1 := 1, animCurrentFrame1 := 2, animIndex2 := 2, animCurrentFrame2 := 2 },
        _) := rfl
  obtain ⟨t2, h2, he⟩ :=
    (frame2_never_consumed sampleSinf sampleClips [noKey, pressT] initState
      { animIndex1 := 0, animCurrentFrame1 := 0, animIndex2 := 1, animCurrentFrame2 := 7 }
      rfl).1 _ _ hrun
  refine ⟨_, t2, _, hrun, h2, he, rfl, ?_⟩
  have h3 : run sampleSinf sampleClips [noKey, pressT]
      { animIndex1 := 0, animCurrentFrame1 := 0, animIndex2 := 1, animCurrentFrame2 := 7 } =
      .ok ({ animIndex1 := 1, animCurrentFrame1 := 2, animIndex2 := 2, animCurrentFrame2 := 3 },
        _) := rfl
  rw [h2] at h3
  injection h3 with h3
  injection h3 with h3
  rw [h3]

/-! ## The blend factor -/

/-- C6. Over the real numbers, with the sine function for `sinf`, the blend
factor `(sin t + 1) / 2` of line 105 lies in the closed interval `[0, 1]` for
every `t`. -/
theorem blend_factor_range (t : ℝ) :
    blendParam (Real.sin t) = (Real.sin t + 1) / 2 ∧
    0 ≤ blendParam (Real.sin t) ∧ blendParam (Real.sin t) ≤ 1 := by
  have h1 := Real.neg_one_le_sin t
  have h2 := Real.sin_le_one t
  refine ⟨rfl, ?_, ?_⟩
  · unfold blendParam; linarith
  · unfold blendParam; linarith

/-! ## Release order -/

/-- C7 as stated fails: the release trace is not the reverse of the acquisition
trace. -/
theorem release_order_not_reverse : releaseTrace ≠ acquisitionTrace.reverse := by
  decide

/-- C7, amended. Every resource is acquired exactly once and released exactly
once, the window is acquired first and released last, and the releases are, in
order: pose buffer 1, pose buffer 2, animation set, model, shader, window; the
acquisitions are window, model, shader, animation set, pose buffer 1, pose
buffer 2. -/
theorem release_order :
    (∀ r : Resource, acquisitionTrace.count r = 1 ∧ releaseTrace.count r = 1) ∧
    acquisitionTrace.head? = some Resource.window ∧
    releaseTrace.getLast? = some Resource.window ∧
    acquisitionTrace =
      [ .window, .characterModel, .skinningShader, .modelAnimations, .pose1, .pose2 ] ∧
    releaseTrace =
      [ .pose1, .pose2, .modelAnimations, .characterModel, .skinningShader, .window ] := by
  refine ⟨?_, by decide, by decide, by decide, by decide⟩
  intro r
  cases r <;> decide

end GpuSkinning
